import Mathlib

/-!
Verification of the review-queue scheduling core of the RF3 vocabulary
drill application, shallowly embedded from the TypeScript sources.

The embedded functions are:
* `calculateResult` — `StudySession.calculateResult` (src/components/Button.tsx),
  the scheduler: counter update, re-insertion offset, queue splice/append.
* `handleVerdict` — `ExamSession.handleVerdict` (src/components/Button.tsx),
  the exam-mode per-card counter update on a fixed question list.
* `initExamQuestions` — the exam initialisation effect (shuffle + slice).
* `importerCmp` / `editorCmp` and the mergeSort-based sorts — the bulk-import
  line ordering of `Importer.handleManualImport` and
  `DeckEditor.confirmBatchSave`.
* `importerNewPhrase` — construction of a brand-new card from a
  parsed line (identical in both bulk-import paths).
-/

namespace RF3

/-- Embeds the `Phrase` interface of src/unnamed/part_000: a card record with
its two streak counters, total review count and optional last-review
timestamp. Counters are JavaScript numbers kept non-negative by the code, so
they are modelled as `Nat`; `lastReviewedAt` is an optional epoch value. -/
structure Phrase where
  id : String
  chinese : String
  english : String
  consecutiveCorrect : Nat
  consecutiveWrong : Nat
  totalReviews : Nat
  lastReviewedAt : Option Nat := none
  note : String := ""
deriving Repr, DecidableEq

/-- Embeds the per-card counter update performed on an answer event. The same
record update appears inline in both `StudySession.calculateResult`
(lines 461-472) and `ExamSession.handleVerdict` (lines 116-127) of
src/components/Button.tsx:
`totalReviews + 1`, the counter matching the outcome incremented, the
opposite counter reset to 0, and `lastReviewedAt` set to the current time. -/
def answerPhrase (isCorrect : Bool) (now : Nat) (p : Phrase) : Phrase :=
  { p with
    totalReviews := p.totalReviews + 1
    consecutiveCorrect := if isCorrect then p.consecutiveCorrect + 1 else 0
    consecutiveWrong := if isCorrect then 0 else p.consecutiveWrong + 1
    lastReviewedAt := some now }

/-- Embeds the `deck.phrases.map(p => p.id === currentPhraseId ? {...} : p)`
traversal shared verbatim by `StudySession.calculateResult` and
`ExamSession.handleVerdict`: every phrase whose id matches the answered id is
put through `answerPhrase`, all others are returned unchanged. -/
def updatePhrases (phrases : List Phrase) (cid : String) (isCorrect : Bool)
    (now : Nat) : List Phrase :=
  phrases.map fun p => if p.id = cid then answerPhrase isCorrect now p else p

/-- Embeds the `insertOffset` computation of `StudySession.calculateResult`
(lines 477-489): for a wrong answer, offset 10 when the already-updated
`consecutiveWrong` is a positive multiple of 3 and offset 2 otherwise; for a
correct answer, `2 ^ (consecutiveCorrect + 1)` on the updated counter. -/
def requestedOffset (isCorrect : Bool) (q : Phrase) : Nat :=
  if isCorrect = false then
    if 0 < q.consecutiveWrong ∧ q.consecutiveWrong % 3 = 0 then 10 else 2
  else
    2 ^ (q.consecutiveCorrect + 1)

/-- Embeds JavaScript `array.splice(k, 0, a)`: insert `a` at index `k`
(appending when `k` is at least the length). -/
def splice (l : List α) (k : Nat) (a : α) : List α :=
  l.take k ++ a :: l.drop k

/-- Return value of `StudySession.calculateResult`: the updated phrase list,
the new queue, and the reported insertion offset. -/
structure CalcResult where
  updatedPhrases : List Phrase
  nextQueue : List String
  insertOffset : Nat
deriving Repr, DecidableEq

/-- Embeds `StudySession.calculateResult` (src/components/Button.tsx lines
450-502). Steps, matching the source: shift the queue head off (`queue.tail`),
update the phrase list via `updatePhrases`, look up the updated phrase
(`updatedPhrases.find(...)`; the source's non-null assertion is modelled by
returning `none` when the lookup fails), compute the requested offset, then
either push the id to the end — reporting `nextQueue.length` measured after
the push — when the offset strictly exceeds the remaining length, or splice
it in at the requested offset, reporting that offset. -/
def calculateResult (phrases : List Phrase) (queue : List String)
    (currentPhraseId : String) (isCorrect : Bool) (now : Nat) :
    Option CalcResult :=
  let nextQueue := queue.tail
  let updatedPhrases := updatePhrases phrases currentPhraseId isCorrect now
  match updatedPhrases.find? (fun p => decide (p.id = currentPhraseId)) with
  | none => none
  | some updatedPhrase =>
    let insertOffset := requestedOffset isCorrect updatedPhrase
    if insertOffset > nextQueue.length then
      some { updatedPhrases := updatedPhrases
             nextQueue := nextQueue ++ [currentPhraseId]
             insertOffset := (nextQueue ++ [currentPhraseId]).length }
    else
      some { updatedPhrases := updatedPhrases
             nextQueue := splice nextQueue insertOffset currentPhraseId
             insertOffset := insertOffset }

/-- Embeds the `ExamStep` union type of `ExamSession`
(src/components/Button.tsx line 49). -/
inductive ExamStep where
  | QUESTION
  | REVEAL
  | RESULT
deriving Repr, DecidableEq

/-- Embeds the React state of `ExamSession` relevant to answering:
the fixed `questions` list sampled at construction, the current index, the
UI step, the running score, the finished flag, the per-question results, and
the deck's phrase list written back through `onUpdateDeck`. -/
structure ExamState where
  questions : List Phrase
  currentIndex : Nat
  step : ExamStep
  score : Nat
  isFinished : Bool
  results : List (Phrase × Bool)
  phrases : List Phrase
deriving Repr

/-- Embeds the exam initialisation effect (src/components/Button.tsx lines
73-82): `shuffled.slice(0, Math.min(questionCount, deck.phrases.length))`.
The randomised `sort(() => 0.5 - Math.random())` is modelled by taking the
shuffled list as an argument; the theorems assume it is a permutation of the
deck's phrases, which every run of a JavaScript sort guarantees. -/
def initExamQuestions (deckPhrases : List Phrase) (questionCount : Nat)
    (shuffled : List Phrase) : List Phrase :=
  shuffled.take (min questionCount deckPhrases.length)

/-- Embeds `ExamSession.handleVerdict` (src/components/Button.tsx lines
109-143): read the current question, update the matching phrase's counters in
the deck, record the result, bump the score on a correct verdict, and either
advance the index or finish. The source indexes `questions[currentIndex]`
unconditionally; an out-of-range read (which the UI never performs) is
modelled as leaving the state unchanged. -/
def handleVerdict (s : ExamState) (correct : Bool) (now : Nat) : ExamState :=
  match s.questions[s.currentIndex]? with
  | none => s
  | some currentPhrase =>
    let updatedPhrases := updatePhrases s.phrases currentPhrase.id correct now
    if s.currentIndex < s.questions.length - 1 then
      { s with
        phrases := updatedPhrases
        results := s.results ++ [(currentPhrase, correct)]
        score := if correct then s.score + 1 else s.score
        currentIndex := s.currentIndex + 1
        step := ExamStep.QUESTION }
    else
      { s with
        phrases := updatedPhrases
        results := s.results ++ [(currentPhrase, correct)]
        score := if correct then s.score + 1 else s.score
        isFinished := true
        step := ExamStep.RESULT }

/-- Embeds one parsed line of the bulk-import pipe format, as produced by the
`lines.map((line, index) => ...)` parse step of both
`Importer.handleManualImport` (src/unnamed/part_001 lines 30-53) and
`DeckEditor.confirmBatchSave` (src/components/DeckEditor.tsx lines 154-177):
text fields, the signed `progress` field, the optional explicit `position`
field, and the original line index. -/
structure ParsedItem where
  english : String
  chinese : String
  note : String
  progress : Int
  position : Option Int
  originalIndex : Nat
deriving Repr, DecidableEq

/-- Embeds the comparator of `Importer.handleManualImport`
(src/unnamed/part_001 lines 56-71): explicit positions sort before implicit
ones, equal-explicitness items compare by position value, and all remaining
ties fall back to the original line index. -/
def importerCmp (a b : ParsedItem) : Int :=
  match a.position, b.position with
  | some _, none => -1
  | none, some _ => 1
  | some pa, some pb =>
    if pa ≠ pb then pa - pb
    else (a.originalIndex : Int) - (b.originalIndex : Int)
  | none, none => (a.originalIndex : Int) - (b.originalIndex : Int)

/-- ASCII lower-casing of one character, modelling
JavaScript `toLowerCase` on the ASCII range the fixtures use. -/
def lowerChar (c : Char) : Char :=
  if 65 ≤ c.toNat ∧ c.toNat ≤ 90 then Char.ofNat (c.toNat + 32) else c

/-- Whitespace test used by `trimChars`, modelling the characters
JavaScript `trim` strips (space, tab, line and page breaks). -/
def isSpaceChar (c : Char) : Bool :=
  decide (c.toNat = 32 ∨ c.toNat = 9 ∨ c.toNat = 10 ∨ c.toNat = 13 ∨
    c.toNat = 12 ∨ c.toNat = 11)

/-- Drops whitespace from both ends of a character list, modelling
JavaScript `trim`. -/
def trimChars (l : List Char) : List Char :=
  ((l.dropWhile isSpaceChar).reverse.dropWhile isSpaceChar).reverse

/-- Embeds the key normalisation `s.toLowerCase().trim()` used by
`DeckEditor.confirmBatchSave` to match import lines against existing
phrases. -/
def keyOf (s : String) : String :=
  String.mk (trimChars (s.data.map lowerChar))

/-- Embeds the comparator of `DeckEditor.confirmBatchSave`
(src/components/DeckEditor.tsx lines 180-208). It differs from
`importerCmp` in one place: at equal explicit positions, a line whose
normalised english key is new (absent from the existing deck) sorts before a
line matching an existing phrase, and only then does the original line index
break the tie. `existingKeys` models `existingPhrasesMap`'s key set. -/
def editorCmp (existingKeys : List String) (a b : ParsedItem) : Int :=
  match a.position, b.position with
  | some _, none => -1
  | none, some _ => 1
  | some pa, some pb =>
    if pa ≠ pb then pa - pb
    else
      let isOldA := keyOf a.english ∈ existingKeys
      let isOldB := keyOf b.english ∈ existingKeys
      if ¬ isOldA ∧ isOldB then -1
      else if isOldA ∧ ¬ isOldB then 1
      else (a.originalIndex : Int) - (b.originalIndex : Int)
  | none, none => (a.originalIndex : Int) - (b.originalIndex : Int)

/-- Non-strict order induced by a JavaScript comparator: `cmp a b <= 0`. -/
def cmpLE (cmp : α → α → Int) (a b : α) : Bool :=
  decide (cmp a b ≤ 0)

/-- Inserts `a` into `l` in front of the first element it compares
less-or-equal to. Helper for `stableSort`. -/
def insertSorted (le : α → α → Bool) (a : α) : List α → List α
  | [] => [a]
  | b :: l => if le a b then a :: b :: l else b :: insertSorted le a l

/-- Stable insertion sort. ECMAScript requires `Array.prototype.sort` to be
a stable sort, and with a consistent comparator (all the embedded
comparators are total preorders) every stable sort produces the same list,
so this models the `parsedItems.sort(...)` calls of the two import paths. -/
def stableSort (le : α → α → Bool) : List α → List α
  | [] => []
  | a :: l => insertSorted le a (stableSort le l)

/-- Embeds `parsedItems.sort(...)` of `Importer.handleManualImport`. -/
def importerSort (items : List ParsedItem) : List ParsedItem :=
  stableSort (cmpLE importerCmp) items

/-- Embeds `parsedItems.sort(...)` of `DeckEditor.confirmBatchSave`. -/
def editorSort (existingKeys : List String) (items : List ParsedItem) :
    List ParsedItem :=
  stableSort (cmpLE (editorCmp existingKeys)) items

/-- Embeds the construction of a brand-new `Phrase` from a parsed import
line, written identically in `Importer.handleManualImport`
(src/unnamed/part_001 lines 73-88) and in the new-phrase branch of
`DeckEditor.confirmBatchSave` (src/components/DeckEditor.tsx lines 242-254):
`progress > 0` seeds `consecutiveCorrect`, `progress < 0` seeds
`consecutiveWrong` with the absolute value, and `totalReviews` is set to
`correct + wrong`. -/
def importerNewPhrase (newId : String) (item : ParsedItem) : Phrase :=
  let correct : Nat := if 0 < item.progress then item.progress.toNat else 0
  let wrong : Nat := if item.progress < 0 then item.progress.natAbs else 0
  { id := newId
    english := item.english
    chinese := item.chinese
    note := item.note
    consecutiveCorrect := correct
    consecutiveWrong := wrong
    totalReviews := correct + wrong
    lastReviewedAt := none }

/-- Spec-side counter invariant (spec section 3): exactly one of a card's
two streak counters is non-zero. -/
def exclusiveCounters (p : Phrase) : Prop :=
  (p.consecutiveCorrect ≠ 0 ∧ p.consecutiveWrong = 0) ∨
  (p.consecutiveCorrect = 0 ∧ p.consecutiveWrong ≠ 0)

instance (p : Phrase) : Decidable (exclusiveCounters p) :=
  decidable_of_iff
    ((p.consecutiveCorrect ≠ 0 ∧ p.consecutiveWrong = 0) ∨
      (p.consecutiveCorrect = 0 ∧ p.consecutiveWrong ≠ 0))
    Iff.rfl

/-- Modelled from the spec's words (section 6, claim C9) for comparison with
the source comparators: explicit positions before implicit ones, explicit
positions ascending, and all ties — equal explicit positions or two implicit
lines — broken by original line order. -/
def specImportLE (a b : ParsedItem) : Bool :=
  match a.position, b.position with
  | some _, none => true
  | none, some _ => false
  | some pa, some pb =>
    decide (pa < pb ∨ (pa = pb ∧ a.originalIndex ≤ b.originalIndex))
  | none, none => decide (a.originalIndex ≤ b.originalIndex)

/-- Concrete card fixture used by scenario conjuncts and witnesses. -/
def mkCard (i : String) (cc cw : Nat) : Phrase :=
  { id := i, chinese := "", english := "", consecutiveCorrect := cc,
    consecutiveWrong := cw, totalReviews := 0 }

lemma answerPhrase_id (b : Bool) (now : Nat) (p : Phrase) :
    (answerPhrase b now p).id = p.id := rfl

lemma answerPhrase_totalReviews (b : Bool) (now : Nat) (p : Phrase) :
    (answerPhrase b now p).totalReviews = p.totalReviews + 1 := rfl

lemma exclusiveCounters_answerPhrase (b : Bool) (now : Nat) (p : Phrase) :
    exclusiveCounters (answerPhrase b now p) := by
  cases b <;> simp [exclusiveCounters, answerPhrase]

lemma find?_updatePhrases (phrases : List Phrase) (cid : String) (b : Bool)
    (now : Nat) :
    (updatePhrases phrases cid b now).find? (fun p => decide (p.id = cid))
      = (phrases.find? (fun p => decide (p.id = cid))).map (answerPhrase b now) := by
  induction phrases with
  | nil => rfl
  | cons p ps ih =>
    by_cases h : p.id = cid
    · simp [updatePhrases, List.find?_cons, h, answerPhrase_id]
    · simp only [updatePhrases, List.map_cons] at ih ⊢
      rw [if_neg h]
      rw [List.find?_cons_of_neg, List.find?_cons_of_neg]
      · exact ih
      · simp [h]
      · simp [h]

lemma calculateResult_eq (phrases : List Phrase) (queue : List String)
    (cid : String) (b : Bool) (now : Nat) (p : Phrase)
    (hfind : phrases.find? (fun q => decide (q.id = cid)) = some p) :
    calculateResult phrases queue cid b now =
      (if requestedOffset b (answerPhrase b now p) > queue.tail.length then
        some { updatedPhrases := updatePhrases phrases cid b now
               nextQueue := queue.tail ++ [cid]
               insertOffset := queue.tail.length + 1 }
      else
        some { updatedPhrases := updatePhrases phrases cid b now
               nextQueue :=
                 splice queue.tail (requestedOffset b (answerPhrase b now p)) cid
               insertOffset := requestedOffset b (answerPhrase b now p) }) := by
  simp only [calculateResult, find?_updatePhrases, hfind, Option.map_some']
  simp [List.length_append]

lemma exists_find?_of_calculateResult {phrases : List Phrase}
    {queue : List String} {cid : String} {b : Bool} {now : Nat} {r : CalcResult}
    (hr : calculateResult phrases queue cid b now = some r) :
    ∃ p, phrases.find? (fun q => decide (q.id = cid)) = some p := by
  simp only [calculateResult, find?_updatePhrases] at hr
  cases hfind : phrases.find? (fun q => decide (q.id = cid)) with
  | none => rw [hfind] at hr; simp at hr
  | some p => exact ⟨p, rfl⟩

lemma updatedPhrases_of_calculateResult {phrases : List Phrase}
    {queue : List String} {cid : String} {b : Bool} {now : Nat} {r : CalcResult}
    (hr : calculateResult phrases queue cid b now = some r) :
    r.updatedPhrases = updatePhrases phrases cid b now := by
  obtain ⟨p, hfind⟩ := exists_find?_of_calculateResult hr
  rw [calculateResult_eq phrases queue cid b now p hfind] at hr
  split at hr <;> (injection hr with h; rw [← h])

lemma splice_length_self (l : List α) (a : α) : splice l l.length a = l ++ [a] := by
  simp [splice, List.take_length, List.drop_length]

/-- Five fresh cards with ids a..e, the C1 scenario deck. -/
def demoDeck5 : List Phrase :=
  [mkCard "a" 0 0, mkCard "b" 0 0, mkCard "c" 0 0, mkCard "d" 0 0, mkCard "e" 0 0]

/-- The scheduler result of answering `a` correctly on `demoDeck5`. -/
def resC1 : CalcResult :=
  { updatedPhrases := updatePhrases demoDeck5 "a" true 0
    nextQueue := ["b", "c", "d", "e", "a"]
    insertOffset := 4 }

/-- Three cards with card `a` already on a 2-miss streak, the C3 scenario
deck. -/
def wrongDeck3 : List Phrase :=
  [mkCard "a" 0 2, mkCard "b" 0 0, mkCard "c" 0 0]

/-- The scheduler result of answering `a` wrongly (its 3rd consecutive miss)
on `wrongDeck3`. -/
def resC3 : CalcResult :=
  { updatedPhrases := updatePhrases wrongDeck3 "a" false 0
    nextQueue := ["b", "c", "a"]
    insertOffset := 3 }

/-- C1: for every card answered correctly in study mode, the scheduler sets
the new `consecutiveCorrect` to the prior value plus 1 and computes the
requested re-insertion offset `2 ^ (consecutiveCorrect + 1)` on the updated
counter; in particular, answering card `a` correctly from
`consecutiveCorrect = 0` in the queue `[a, b, c, d, e]` yields offset 4 and
resulting queue `[b, c, d, e, a]`. -/
theorem correct_answer_exponential_backoff
    (phrases : List Phrase) (queue : List String) (cid : String) (now : Nat)
    (p : Phrase) (hfind : phrases.find? (fun q => decide (q.id = cid)) = some p)
    (r : CalcResult) (hr : calculateResult phrases queue cid true now = some r) :
    r.updatedPhrases = updatePhrases phrases cid true now ∧
    (∃ q, (updatePhrases phrases cid true now).find?
        (fun x => decide (x.id = cid)) = some q ∧
      q.consecutiveCorrect = p.consecutiveCorrect + 1 ∧
      requestedOffset true q = 2 ^ (q.consecutiveCorrect + 1)) ∧
    (calculateResult demoDeck5 ["a", "b", "c", "d", "e"] "a" true now).map
        (fun s => (s.nextQueue, s.insertOffset))
      = some (["b", "c", "d", "e", "a"], 4) := by
  refine ⟨updatedPhrases_of_calculateResult hr,
    ⟨answerPhrase true now p, ?_, ?_, ?_⟩, ?_⟩
  · rw [find?_updatePhrases, hfind]; rfl
  · simp [answerPhrase]
  · rfl
  · rfl

/-- Witness for C1: the concrete scenario conjunct at `now = 0`. -/
theorem correct_answer_exponential_backoff_witness :
    (calculateResult demoDeck5 ["a", "b", "c", "d", "e"] "a" true 0).map
        (fun s => (s.nextQueue, s.insertOffset))
      = some (["b", "c", "d", "e", "a"], 4) :=
  (correct_answer_exponential_backoff demoDeck5 ["a", "b", "c", "d", "e"]
    "a" 0 (mkCard "a" 0 0) rfl resC1 rfl).2.2

/-- C2: for every card answered wrongly in study mode, the scheduler sets
`consecutiveWrong` to the prior value plus 1 and requests offset 10 exactly
when the updated counter is a positive multiple of 3 (equivalently, when the
prior counter plus 1 is a multiple of 3 — the 3rd, 6th, 9th, ... consecutive
miss, never the 1st or 2nd) and offset 2 otherwise. -/
theorem wrong_answer_escalation
    (phrases : List Phrase) (queue : List String) (cid : String) (now : Nat)
    (p : Phrase) (hfind : phrases.find? (fun q => decide (q.id = cid)) = some p)
    (r : CalcResult) (hr : calculateResult phrases queue cid false now = some r) :
    r.updatedPhrases = updatePhrases phrases cid false now ∧
    (∃ q, (updatePhrases phrases cid false now).find?
        (fun x => decide (x.id = cid)) = some q ∧
      q.consecutiveWrong = p.consecutiveWrong + 1 ∧
      (requestedOffset false q = 10 ↔
        0 < q.consecutiveWrong ∧ q.consecutiveWrong % 3 = 0) ∧
      (¬ (0 < q.consecutiveWrong ∧ q.consecutiveWrong % 3 = 0) →
        requestedOffset false q = 2) ∧
      (requestedOffset false q = 10 ↔ (p.consecutiveWrong + 1) % 3 = 0)) ∧
    (∀ p3 : Phrase, p3.consecutiveWrong = 0 ∨ p3.consecutiveWrong = 1 →
      requestedOffset false (answerPhrase false now p3) = 2) ∧
    requestedOffset false (answerPhrase false 0 (mkCard "x" 0 2)) = 10 ∧
    requestedOffset false (answerPhrase false 0 (mkCard "x" 0 5)) = 10 := by
  have hq : (answerPhrase false now p).consecutiveWrong
      = p.consecutiveWrong + 1 := by simp [answerPhrase]
  refine ⟨updatedPhrases_of_calculateResult hr,
    ⟨answerPhrase false now p, ?_, hq, ?_, ?_, ?_⟩, ?_, rfl, rfl⟩
  · rw [find?_updatePhrases, hfind]; rfl
  · by_cases hc : 0 < (answerPhrase false now p).consecutiveWrong ∧
        (answerPhrase false now p).consecutiveWrong % 3 = 0 <;>
      simp [requestedOffset, hc]
  · intro hc; simp [requestedOffset, hc]
  · by_cases hc : 0 < (answerPhrase false now p).consecutiveWrong ∧
        (answerPhrase false now p).consecutiveWrong % 3 = 0 <;>
      simp [requestedOffset, hc] <;> omega
  · intro p3 h3
    have : (answerPhrase false now p3).consecutiveWrong
        = p3.consecutiveWrong + 1 := by simp [answerPhrase]
    have hne : ¬ (0 < (answerPhrase false now p3).consecutiveWrong ∧
        (answerPhrase false now p3).consecutiveWrong % 3 = 0) := by omega
    simp [requestedOffset, hne]

/-- Witness for C2: the 3rd consecutive miss of card `a` on `wrongDeck3`
requests the offset-10 penalty. -/
theorem wrong_answer_escalation_witness :
    requestedOffset false (answerPhrase false 0 (mkCard "x" 0 2)) = 10 :=
  (wrong_answer_escalation wrongDeck3 ["a", "b", "c"] "a" 0 (mkCard "a" 0 2)
    rfl resC3 rfl).2.2.2.1

/-- C3 counterexample: the code reports the post-push length, not the length
of the remaining queue. Answering `a` wrong for the 3rd consecutive time in
`[a, b, c]` yields queue `[b, c, a]` with reported offset 3 (the claim says
2), and any answer in a queue of length 1 reports offset 1 (the claim says
0). -/
theorem clamp_report_counterexample :
    (calculateResult wrongDeck3 ["a", "b", "c"] "a" false 0).map
        (fun s => (s.nextQueue, s.insertOffset)) = some (["b", "c", "a"], 3) ∧
    (calculateResult [mkCard "a" 0 0] ["a"] "a" true 0).map
        (fun s => (s.nextQueue, s.insertOffset)) = some (["a"], 1) ∧
    (calculateResult [mkCard "a" 0 0] ["a"] "a" false 0).map
        (fun s => (s.nextQueue, s.insertOffset)) = some (["a"], 1) :=
  ⟨rfl, rfl, rfl⟩

/-- C3 amended: whenever the requested offset is at least the length of the
remaining queue, the scheduler appends the card id to the end; it reports the
actual offset as that length when the requested offset equals it (splice at
the very end) and as that length plus 1 when the requested offset strictly
exceeds it (push branch, which reports the queue length measured after the
push). -/
theorem clamp_appends_and_reports
    (phrases : List Phrase) (queue : List String) (cid : String) (b : Bool)
    (now : Nat) (p : Phrase)
    (hfind : phrases.find? (fun q => decide (q.id = cid)) = some p)
    (r : CalcResult) (hr : calculateResult phrases queue cid b now = some r)
    (hk : queue.tail.length ≤ requestedOffset b (answerPhrase b now p)) :
    r.nextQueue = queue.tail ++ [cid] ∧
    r.insertOffset =
      (if requestedOffset b (answerPhrase b now p) = queue.tail.length
       then queue.tail.length else queue.tail.length + 1) := by
  rw [calculateResult_eq phrases queue cid b now p hfind] at hr
  by_cases hgt : requestedOffset b (answerPhrase b now p) > queue.tail.length
  · rw [if_pos hgt] at hr
    injection hr with h
    rw [← h]
    exact ⟨rfl, by rw [if_neg (by omega)]⟩
  · rw [if_neg hgt] at hr
    injection hr with h
    rw [← h]
    have hkl : requestedOffset b (answerPhrase b now p) = queue.tail.length := by
      omega
    refine ⟨?_, by rw [if_pos hkl, hkl]⟩
    rw [hkl]
    exact splice_length_self queue.tail cid

/-- Witness for C3's amended claim: the `wrongDeck3` scenario, where the
requested offset 10 exceeds the remaining length 2 and the card is
appended. -/
theorem clamp_appends_and_reports_witness :
    resC3.nextQueue = ["a", "b", "c"].tail ++ ["a"] :=
  (clamp_appends_and_reports wrongDeck3 ["a", "b", "c"] "a" false 0
    (mkCard "a" 0 2) rfl resC3 rfl (by decide)).1

lemma mem_updatePhrases {q : Phrase} {phrases : List Phrase} {cid : String}
    {b : Bool} {now : Nat} (h : q ∈ updatePhrases phrases cid b now) :
    ∃ p, p ∈ phrases ∧
      ((¬ p.id = cid ∧ q = p) ∨ (p.id = cid ∧ q = answerPhrase b now p)) := by
  unfold updatePhrases at h
  rcases List.mem_map.mp h with ⟨p, hp, heq⟩
  by_cases hid : p.id = cid
  · exact ⟨p, hp, Or.inr ⟨hid, by rw [← heq, if_pos hid]⟩⟩
  · exact ⟨p, hp, Or.inl ⟨hid, by rw [← heq, if_neg hid]⟩⟩

lemma handleVerdict_phrases {s : ExamState} {c : Bool} {now : Nat}
    {cur : Phrase} (hcur : s.questions[s.currentIndex]? = some cur) :
    (handleVerdict s c now).phrases = updatePhrases s.phrases cur.id c now := by
  unfold handleVerdict
  rw [hcur]
  split
  next heq => exact Option.noConfusion heq
  next u heq =>
    injection heq with h
    subst h
    split <;> rfl

/-- C4: after every answer event, in both study and exam mode, the answered
card is replaced by its `answerPhrase` update — the counter matching the
outcome incremented, the opposite counter reset to 0 — and so satisfies the
exactly-one-non-zero counter invariant; every other card is carried over
unchanged, so a card satisfying the invariant before the answer satisfies it
after. -/
theorem counter_exclusivity
    (phrases : List Phrase) (queue : List String) (cid : String) (b : Bool)
    (now : Nat) (r : CalcResult)
    (hr : calculateResult phrases queue cid b now = some r)
    (s : ExamState) (c : Bool) (n2 : Nat) (cur : Phrase)
    (hcur : s.questions[s.currentIndex]? = some cur) :
    (∀ q ∈ r.updatedPhrases, ∃ p, p ∈ phrases ∧
      ((¬ p.id = cid ∧ q = p) ∨
       (p.id = cid ∧ q = answerPhrase b now p ∧ exclusiveCounters q))) ∧
    (∀ q ∈ (handleVerdict s c n2).phrases, ∃ p, p ∈ s.phrases ∧
      ((¬ p.id = cur.id ∧ q = p) ∨
       (p.id = cur.id ∧ q = answerPhrase c n2 p ∧ exclusiveCounters q))) ∧
    (∀ (b3 : Bool) (n3 : Nat) (p3 : Phrase),
      exclusiveCounters (answerPhrase b3 n3 p3) ∧
      (answerPhrase true n3 p3).consecutiveCorrect = p3.consecutiveCorrect + 1 ∧
      (answerPhrase true n3 p3).consecutiveWrong = 0 ∧
      (answerPhrase false n3 p3).consecutiveWrong = p3.consecutiveWrong + 1 ∧
      (answerPhrase false n3 p3).consecutiveCorrect = 0) := by
  refine ⟨?_, ?_, ?_⟩
  · intro q hq
    rw [updatedPhrases_of_calculateResult hr] at hq
    rcases mem_updatePhrases hq with ⟨p, hp, h | h⟩
    · exact ⟨p, hp, Or.inl h⟩
    · exact ⟨p, hp, Or.inr ⟨h.1, h.2,
        h.2 ▸ exclusiveCounters_answerPhrase b now p⟩⟩
  · intro q hq
    rw [handleVerdict_phrases hcur] at hq
    rcases mem_updatePhrases hq with ⟨p, hp, h | h⟩
    · exact ⟨p, hp, Or.inl h⟩
    · exact ⟨p, hp, Or.inr ⟨h.1, h.2,
        h.2 ▸ exclusiveCounters_answerPhrase c n2 p⟩⟩
  · intro b3 n3 p3
    exact ⟨exclusiveCounters_answerPhrase b3 n3 p3, rfl, rfl, rfl, rfl⟩

/-- Concrete one-question exam state over `demoDeck5`, awaiting a verdict. -/
def demoExam : ExamState :=
  { questions := [mkCard "a" 0 0]
    currentIndex := 0
    step := ExamStep.REVEAL
    score := 0
    isFinished := false
    results := []
    phrases := demoDeck5 }

/-- Witness for C4: the general exclusivity fact instantiated at a concrete
study-mode call on `demoDeck5` and a concrete exam state. -/
theorem counter_exclusivity_witness :
    exclusiveCounters (answerPhrase true 0 (mkCard "a" 0 0)) ∧
    (answerPhrase true 0 (mkCard "a" 0 0)).consecutiveCorrect
      = (mkCard "a" 0 0).consecutiveCorrect + 1 ∧
    (answerPhrase true 0 (mkCard "a" 0 0)).consecutiveWrong = 0 ∧
    (answerPhrase false 0 (mkCard "a" 0 0)).consecutiveWrong
      = (mkCard "a" 0 0).consecutiveWrong + 1 ∧
    (answerPhrase false 0 (mkCard "a" 0 0)).consecutiveCorrect = 0 :=
  (counter_exclusivity demoDeck5 ["a", "b", "c", "d", "e"] "a" true 0 resC1
    rfl demoExam true 0 (mkCard "a" 0 0) rfl).2.2 true 0 (mkCard "a" 0 0)

/-- C5: each answer event, in both study and exam mode, maps the answered
card through `answerPhrase`, which increments `totalReviews` by exactly 1
regardless of outcome, and leaves every other card untouched; folding any
sequence of answers over a card adds its length to `totalReviews`, so a card
starting at 0 ends at the number of answers. -/
theorem totalReviews_counts_answers
    (phrases : List Phrase) (queue : List String) (cid : String) (b : Bool)
    (now : Nat) (r : CalcResult)
    (hr : calculateResult phrases queue cid b now = some r)
    (s : ExamState) (c : Bool) (n2 : Nat) (cur : Phrase)
    (hcur : s.questions[s.currentIndex]? = some cur) :
    r.updatedPhrases = updatePhrases phrases cid b now ∧
    (handleVerdict s c n2).phrases = updatePhrases s.phrases cur.id c n2 ∧
    (∀ (b3 : Bool) (n3 : Nat) (p3 : Phrase),
      (answerPhrase b3 n3 p3).totalReviews = p3.totalReviews + 1) ∧
    (∀ p3 ∈ phrases, ¬ p3.id = cid → p3 ∈ r.updatedPhrases) ∧
    (∀ (events : List (Bool × Nat)) (p3 : Phrase),
      (events.foldl (fun acc e => answerPhrase e.1 e.2 acc) p3).totalReviews
        = p3.totalReviews + events.length) := by
  refine ⟨updatedPhrases_of_calculateResult hr, handleVerdict_phrases hcur,
    fun b3 n3 p3 => rfl, ?_, ?_⟩
  · intro p3 hp3 hid
    rw [updatedPhrases_of_calculateResult hr]
    unfold updatePhrases
    exact List.mem_map.mpr ⟨p3, hp3, if_neg hid⟩
  · intro events
    induction events with
    | nil => intro p3; simp
    | cons e es ih =>
      intro p3
      rw [List.foldl_cons, ih (answerPhrase e.1 e.2 p3)]
      rw [answerPhrase_totalReviews]
      simp
      omega

/-- Witness for C5: the per-answer increment instantiated at concrete calls
on `demoDeck5` and `demoExam`. -/
theorem totalReviews_counts_answers_witness :
    resC1.updatedPhrases = updatePhrases demoDeck5 "a" true 0 :=
  (totalReviews_counts_answers demoDeck5 ["a", "b", "c", "d", "e"] "a" true 0
    resC1 rfl demoExam true 0 (mkCard "a" 0 0) rfl).1

/-- C6: for every non-empty duplicate-free queue with the answered card at
its head, the queue produced by one scheduler step is a permutation of the
original queue — duplicate-free, containing the answered id and every other
id exactly once. -/
theorem queue_integrity
    (phrases : List Phrase) (queue : List String) (cid : String) (b : Bool)
    (now : Nat) (r : CalcResult)
    (hr : calculateResult phrases queue cid b now = some r)
    (hhead : queue.head? = some cid) (hnodup : queue.Nodup) :
    r.nextQueue.Perm queue ∧ r.nextQueue.Nodup ∧
    List.count cid r.nextQueue = 1 ∧
    ∀ x ∈ queue, List.count x r.nextQueue = 1 := by
  obtain ⟨t, hqeq⟩ : ∃ t, queue = cid :: t := by
    cases queue with
    | nil => simp at hhead
    | cons a t =>
      simp only [List.head?_cons, Option.some.injEq] at hhead
      exact ⟨t, by rw [hhead]⟩
  obtain ⟨p, hfind⟩ := exists_find?_of_calculateResult hr
  rw [calculateResult_eq phrases queue cid b now p hfind] at hr
  have hperm : r.nextQueue.Perm queue := by
    split at hr <;> injection hr with h <;> rw [← h] <;>
      simp only [hqeq, List.tail_cons]
    · exact (List.perm_middle.trans (by simp)).symm.symm
    · exact (List.perm_middle.trans
        (by rw [List.take_append_drop])).symm.symm
  have hcid : cid ∈ queue := by rw [hqeq]; exact List.mem_cons_self cid t
  refine ⟨hperm, hperm.symm.nodup hnodup, ?_, ?_⟩
  · rw [hperm.count_eq]
    exact List.count_eq_one_of_mem hnodup hcid
  · intro x hx
    rw [hperm.count_eq]
    exact List.count_eq_one_of_mem hnodup hx

/-- Witness for C6: the `demoDeck5` scenario queue is permuted, not
duplicated or shrunk. -/
theorem queue_integrity_witness :
    resC1.nextQueue.Perm ["a", "b", "c", "d", "e"] :=
  (queue_integrity demoDeck5 ["a", "b", "c", "d", "e"] "a" true 0 resC1 rfl
    rfl (by decide)).1

/-- C7: in exam mode, answering a card with either verdict never changes the
fixed sampled question list — no reordering, removal or insertion — so every
other card keeps its position. -/
theorem exam_questions_immutable (s : ExamState) (c : Bool) (now : Nat) :
    (handleVerdict s c now).questions = s.questions ∧
    ∀ i : Nat, ((handleVerdict s c now).questions)[i]? = s.questions[i]? := by
  have h : (handleVerdict s c now).questions = s.questions := by
    unfold handleVerdict
    split
    · rfl
    · split <;> rfl
  exact ⟨h, fun i => by rw [h]⟩

/-- C8: for every requested question count and every deck, the exam session
selects exactly `min(requestedCount, deckSize)` cards, each at most once
(the selection is duplicate-free and drawn from the deck), clamping an
over-long request to the available count instead of erroring. -/
theorem exam_sampling_clamped
    (deckPhrases shuffled : List Phrase) (questionCount : Nat)
    (hperm : shuffled.Perm deckPhrases) (hnodup : deckPhrases.Nodup) :
    (initExamQuestions deckPhrases questionCount shuffled).length
      = min questionCount deckPhrases.length ∧
    (initExamQuestions deckPhrases questionCount shuffled).Nodup ∧
    ∀ p ∈ initExamQuestions deckPhrases questionCount shuffled,
      p ∈ deckPhrases := by
  refine ⟨?_, ?_, ?_⟩
  · unfold initExamQuestions
    rw [List.length_take, hperm.length_eq]
    exact Nat.min_eq_left (Nat.min_le_right _ _)
  · exact (List.take_sublist _ _).nodup (hperm.symm.nodup hnodup)
  · intro p hp
    exact hperm.subset ((List.take_sublist _ _).subset hp)

/-- Witness for C8: requesting 20 questions from the 5-card `demoDeck5`
clamps to 5 distinct cards. -/
theorem exam_sampling_clamped_witness :
    (initExamQuestions demoDeck5 20 demoDeck5).length
      = min 20 demoDeck5.length :=
  (exam_sampling_clamped demoDeck5 demoDeck5 20 (List.Perm.refl demoDeck5)
    (by decide)).1

lemma insertSorted_perm (le : α → α → Bool) (a : α) (l : List α) :
    (insertSorted le a l).Perm (a :: l) := by
  induction l with
  | nil => exact List.Perm.refl _
  | cons b l ih =>
    simp only [insertSorted]
    by_cases h : le a b = true
    · rw [if_pos h]
    · rw [if_neg h]
      exact (ih.cons b).trans (List.Perm.swap a b l)

lemma stableSort_perm (le : α → α → Bool) (l : List α) :
    (stableSort le l).Perm l := by
  induction l with
  | nil => exact List.Perm.refl _
  | cons a l ih =>
    exact (insertSorted_perm le a (stableSort le l)).trans (ih.cons a)

lemma pairwise_insertSorted {le : α → α → Bool}
    (htrans : ∀ x y z, le x y = true → le y z = true → le x z = true)
    (htotal : ∀ x y, le x y = true ∨ le y x = true)
    (a : α) {l : List α} (h : l.Pairwise (fun x y => le x y = true)) :
    (insertSorted le a l).Pairwise (fun x y => le x y = true) := by
  induction l with
  | nil => simp [insertSorted]
  | cons b l ih =>
    rcases List.pairwise_cons.mp h with ⟨hb, hl⟩
    simp only [insertSorted]
    by_cases hab : le a b = true
    · rw [if_pos hab]
      refine List.pairwise_cons.mpr ⟨?_, h⟩
      intro x hx
      rcases List.mem_cons.mp hx with rfl | hx
      · exact hab
      · exact htrans a b x hab (hb x hx)
    · rw [if_neg hab]
      refine List.pairwise_cons.mpr ⟨?_, ih hl⟩
      intro x hx
      have hx' : x ∈ a :: l := (insertSorted_perm le a l).mem_iff.mp hx
      rcases List.mem_cons.mp hx' with h' | hx'
      · rw [h']
        exact (htotal a b).resolve_left hab
      · exact hb x hx'

lemma pairwise_stableSort {le : α → α → Bool}
    (htrans : ∀ x y z, le x y = true → le y z = true → le x z = true)
    (htotal : ∀ x y, le x y = true ∨ le y x = true) (l : List α) :
    (stableSort le l).Pairwise (fun x y => le x y = true) := by
  induction l with
  | nil => simp [stableSort]
  | cons a l ih =>
    exact pairwise_insertSorted htrans htotal a ih

lemma importerCmp_total (a b : ParsedItem) :
    cmpLE importerCmp a b = true ∨ cmpLE importerCmp b a = true := by
  unfold cmpLE importerCmp
  rcases ha : a.position with _ | pa <;> rcases hb : b.position with _ | pb <;>
    simp only [decide_eq_true_eq] <;> (try split_ifs) <;> omega

lemma importerCmp_trans (a b c : ParsedItem) :
    cmpLE importerCmp a b = true → cmpLE importerCmp b c = true →
    cmpLE importerCmp a c = true := by
  unfold cmpLE importerCmp
  rcases ha : a.position with _ | pa <;> rcases hb : b.position with _ | pb <;>
    rcases hc : c.position with _ | pc <;>
    simp only [decide_eq_true_eq] <;> (try split_ifs) <;> intros <;> omega

lemma editorCmp_total (ks : List String) (a b : ParsedItem) :
    cmpLE (editorCmp ks) a b = true ∨ cmpLE (editorCmp ks) b a = true := by
  unfold cmpLE editorCmp
  rcases ha : a.position with _ | pa <;> rcases hb : b.position with _ | pb <;>
    by_cases hA : keyOf a.english ∈ ks <;> by_cases hB : keyOf b.english ∈ ks <;>
    simp [hA, hB] <;> (try split_ifs) <;> omega

lemma editorCmp_trans (ks : List String) (a b c : ParsedItem) :
    cmpLE (editorCmp ks) a b = true → cmpLE (editorCmp ks) b c = true →
    cmpLE (editorCmp ks) a c = true := by
  unfold cmpLE editorCmp
  rcases ha : a.position with _ | pa <;> rcases hb : b.position with _ | pb <;>
    rcases hc : c.position with _ | pc <;>
    by_cases hA : keyOf a.english ∈ ks <;> by_cases hB : keyOf b.english ∈ ks <;>
    by_cases hC : keyOf c.english ∈ ks <;>
    simp [hA, hB, hC] <;> (try split_ifs) <;> intros <;> omega

lemma importerLE_spec (a b : ParsedItem) :
    cmpLE importerCmp a b = true → specImportLE a b = true := by
  unfold cmpLE importerCmp specImportLE
  rcases ha : a.position with _ | pa <;> rcases hb : b.position with _ | pb <;>
    simp only [decide_eq_true_eq] <;> (try split_ifs) <;> intros <;>
    first
    | trivial
    | omega

/-- An import line matching an existing phrase (deck key `know`), at
explicit position 5, appearing first in the pasted text. -/
def oldLine : ParsedItem :=
  { english := "know", chinese := "", note := "", progress := 0,
    position := some 5, originalIndex := 0 }

/-- An import line new to the deck, also at explicit position 5, appearing
second in the pasted text. -/
def newLine : ParsedItem :=
  { english := "fresh", chinese := "", note := "", progress := 0,
    position := some 5, originalIndex := 1 }

/-- C9 counterexample: in the deck-editor batch save, two lines with equal
explicit positions are NOT tie-broken by original line order when one of
them matches an existing phrase — the new line jumps ahead of the earlier
old line. With the deck containing english key `know`, the pasted order
`[oldLine, newLine]` (equal positions 5, line order old-then-new) sorts to
`[newLine, oldLine]`, violating the claimed ordering; the plain importer
path keeps the claimed line order on the same input. -/
theorem import_tie_counterexample :
    editorSort ["know"] [oldLine, newLine] = [newLine, oldLine] ∧
    ¬ (editorSort ["know"] [oldLine, newLine]).Pairwise
      (fun a b => specImportLE a b = true) ∧
    importerSort [oldLine, newLine] = [oldLine, newLine] := by
  refine ⟨?_, ?_, ?_⟩ <;> decide

/-- C9 amended: both import paths order parsed lines with all explicit
positions before all implicit ones and explicit positions ascending, and
produce a permutation of the parsed lines; the plain importer breaks all
ties by original line order (the spec's ordering), while the deck-editor
batch save breaks ties at equal explicit positions first by
new-line-before-existing-line and only then by original line order (its
comparator `editorCmp`). -/
theorem import_order_rules (items : List ParsedItem)
    (existingKeys : List String) :
    (importerSort items).Perm items ∧
    (importerSort items).Pairwise (fun a b => specImportLE a b = true) ∧
    (editorSort existingKeys items).Perm items ∧
    (editorSort existingKeys items).Pairwise
      (fun a b => cmpLE (editorCmp existingKeys) a b = true) := by
  refine ⟨stableSort_perm _ _, ?_, stableSort_perm _ _, ?_⟩
  · exact (pairwise_stableSort importerCmp_trans importerCmp_total
      items).imp (fun h => importerLE_spec _ _ h)
  · exact pairwise_stableSort (editorCmp_trans existingKeys)
      (editorCmp_total existingKeys) items

/-- C10: a brand-new card created through the bulk import path with
progress field `p` starts with `totalReviews = |p|`, the sum of its seeded
`consecutiveCorrect` and `consecutiveWrong`, although no answer event has
occurred; `p = 0` yields `totalReviews = 0` since `|0| = 0`. -/
theorem imported_card_totalReviews (newId : String) (item : ParsedItem) :
    (importerNewPhrase newId item).totalReviews = item.progress.natAbs ∧
    (importerNewPhrase newId item).totalReviews
      = (importerNewPhrase newId item).consecutiveCorrect +
        (importerNewPhrase newId item).consecutiveWrong := by
  refine ⟨?_, rfl⟩
  simp only [importerNewPhrase]
  split_ifs <;> omega

end RF3
